import Mathlib

/-!
# Verification of the NSE Bhavcopy viewer core pipeline (`eod_data.py`)

This file embeds the deterministic core of the repository's single source
file: the record normalizer (derived columns `% Price Change`, `% Delivery`,
`Delivered Qty`, `Turnover (₹ Cr)`, company-name resolution), the filter
engine (numeric ranges, free-text search, index membership), pagination,
the top-N export, and the index-constituent fetcher, and proves the
specified properties about them.

Machine reals of the source (pandas float64 columns) are modelled by exact
rationals extended with the IEEE special values that the pipeline can
actually produce: the division `(CLOSE_PRICE - PREV_CLOSE) / PREV_CLOSE`
yields `+inf`, `-inf` or `NaN` when `PREV_CLOSE == 0`, and the later
`fillna(0)` pass replaces only `NaN`, never the infinities.  Values before
the `fillna(0)` pass live in `PValue` (which has a `NaN`); values after it
live in `EValue` (no `NaN`).
-/

/-- A pandas float64 cell before the `fillna(0)` pass: a finite rational,
`+inf`, `-inf`, or `NaN`. -/
inductive PValue where
  | nan : PValue
  | neginf : PValue
  | fin : ℚ → PValue
  | inf : PValue
deriving DecidableEq, Repr

/-- A pandas float64 cell after the `fillna(0)` pass: no `NaN` remains,
but infinities survive `fillna`. -/
inductive EValue where
  | neginf : EValue
  | fin : ℚ → EValue
  | inf : EValue
deriving DecidableEq, Repr

/-- `fillna(0)` on a single cell: `NaN` becomes `0`, everything else
(including the infinities) is untouched (source line 291,
`display_df = display_df.fillna(0)`). -/
def fillna0 : PValue → EValue
  | .nan => .fin 0
  | .neginf => .neginf
  | .fin q => .fin q
  | .inf => .inf

/-- IEEE-754 division semantics for the only division the pipeline
performs: `x / y` is the exact quotient when `y ≠ 0`, and `NaN`, `+inf`
or `-inf` when `y = 0` according to the sign of `x`. -/
def pandasDiv (x y : ℚ) : PValue :=
  if y = 0 then
    if x = 0 then .nan
    else if 0 < x then .inf
    else .neginf
  else .fin (x / y)

/-- Scaling by the positive literal `100` of the source expression
`... / df['PREV_CLOSE'] * 100`: finite cells are multiplied, the special
values are preserved (IEEE: `±inf * 100 = ±inf`, `NaN * 100 = NaN`). -/
def PValue.mulPos (v : PValue) (c : ℚ) : PValue :=
  match v with
  | .nan => .nan
  | .neginf => .neginf
  | .fin q => .fin (q * c)
  | .inf => .inf

/-- Round-half-to-even to an integer, the rounding used by numpy/pandas
`.round` and Python's builtin `round`. -/
def roundHalfEven (q : ℚ) : ℤ :=
  let f := ⌊q⌋
  let frac := q - f
  if frac < 1/2 then f
  else if 1/2 < frac then f + 1
  else if f % 2 = 0 then f else f + 1

/-- `.round(2)`: round to two decimal places, half to even. -/
def round2 (q : ℚ) : ℚ := (roundHalfEven (q * 100) : ℚ) / 100

/-- `.round(2)` on a pandas cell: finite values are rounded, the special
values pass through unchanged (`round` of `NaN`/`±inf` is itself). -/
def PValue.round2P : PValue → PValue
  | .nan => .nan
  | .neginf => .neginf
  | .fin q => .fin (round2 q)
  | .inf => .inf

/-- The full `% Price Change` pipeline of source lines 278-280 followed by
the blanket `fillna(0)` of line 291:
`((df['CLOSE_PRICE'] - df['PREV_CLOSE']) / df['PREV_CLOSE'] * 100).round(2)`. -/
def pctChange (close_price prev_close : ℚ) : EValue :=
  fillna0 ((pandasDiv (close_price - prev_close) prev_close).mulPos 100).round2P

/-- Comparison of pandas cells as pandas `>=` / `<=` behave on float64
columns without `NaN`: `-inf` below every value, `+inf` above. -/
def EValue.leb : EValue → EValue → Bool
  | .neginf, _ => true
  | _, .inf => true
  | .inf, .neginf => false
  | .inf, .fin _ => false
  | .fin _, .neginf => false
  | .fin a, .fin b => decide (a ≤ b)

/-- `astype(int)` on a float cell: truncation toward zero. -/
def truncQ (q : ℚ) : ℤ := if 0 ≤ q then ⌊q⌋ else ⌈q⌉

/-- `str.upper()` (ASCII, as NSE symbols and names are ASCII). -/
def strUpper (s : String) : String := ⟨s.data.map Char.toUpper⟩

/-- `str.lower()`. -/
def strLower (s : String) : String := ⟨s.data.map Char.toLower⟩

/-- `str.strip()`: drop whitespace from both ends. -/
def strTrim (s : String) : String :=
  ⟨((s.data.dropWhile Char.isWhitespace).reverse.dropWhile Char.isWhitespace).reverse⟩

/-- Substring test on character lists (`pat` occurs contiguously in
`hay`). -/
def listContainsSub (hay pat : List Char) : Bool :=
  pat.isPrefixOf hay ||
    match hay with
    | [] => false
    | _ :: t => listContainsSub t pat

/-- Substring containment used to model `pandas.Series.str.contains`.
The source calls `str.contains` with its default `regex=True`; the model
covers the literal fragment (patterns without regex metacharacters), for
which the Python call is exactly a substring search. -/
def strContains (hay pat : String) : Bool := listContainsSub hay.data pat.data

/-- One raw bhavcopy record as delivered by
`capital_market.bhav_copy_with_delivery` (source line 243): the columns
the pipeline reads.  `DELIV_QTY` and `DELIV_PER` are `Option`s because
the source treats them as possibly missing / non-numeric
(`pd.to_numeric(..., errors='coerce')`). -/
structure RawRecord where
  SYMBOL : String
  DATE1 : String
  PREV_CLOSE : ℚ
  CLOSE_PRICE : ℚ
  TTL_TRD_QNTY : ℤ
  DELIV_QTY : Option ℚ
  DELIV_PER : Option ℚ
  TURNOVER_LACS : ℚ
deriving DecidableEq, Repr

/-- One row of `display_df` (source lines 269-291). -/
structure NormalizedRow where
  stock_name : String
  pct_change : EValue
  pct_delivery : ℚ
  total_volume : ℤ
  close_price : ℚ
  prev_close_price : ℚ
  symbol : String
  date : String
  delivered_qty : ℤ
  turnover_cr : ℚ
deriving DecidableEq, Repr

/-- Month-abbreviation table of the `%d-%b-%Y` date format at source
line 288. -/
def monthNum : String → Option ℕ
  | "Jan" => some 1
  | "Feb" => some 2
  | "Mar" => some 3
  | "Apr" => some 4
  | "May" => some 5
  | "Jun" => some 6
  | "Jul" => some 7
  | "Aug" => some 8
  | "Sep" => some 9
  | "Oct" => some 10
  | "Nov" => some 11
  | "Dec" => some 12
  | _ => none

/-- Two-digit zero padding of `strftime('%d-%m-%Y')`. -/
def pad2 (n : ℕ) : String := if n < 10 then "0" ++ toString n else toString n

/-- Split a character list at every occurrence of the separator, the
semantics of `"..".split("-")` / `splitOn "-"` for a one-character
separator. -/
def splitOnChar (sep : Char) : List Char → List (List Char)
  | [] => [[]]
  | c :: rest =>
    let r := splitOnChar sep rest
    if c = sep then [] :: r
    else
      match r with
      | [] => [[c]]
      | h :: t => (c :: h) :: t

/-- `str.toNat?` semantics on a character list: `none` when empty or any
character is not a digit. -/
def charsToNat? (l : List Char) : Option ℕ :=
  if l = [] then none
  else if l.all Char.isDigit then
    some (l.foldl (fun a c => a * 10 + (c.toNat - 48)) 0)
  else none

/-- `pd.to_datetime(df['DATE1'], format='%d-%b-%Y').dt.strftime('%d-%m-%Y')`
(source line 288).  `none` models the `ValueError` pandas raises on an
unparseable date (caught only by the top-level handler at line 542). -/
def convertDate (s : String) : Option String :=
  match splitOnChar '-' s.data with
  | [d, m, y] => do
      let dn ← charsToNat? d
      let mn ← monthNum ⟨m⟩
      let yn ← charsToNat? y
      if 1 ≤ dn ∧ dn ≤ 31 then
        some (pad2 dn ++ "-" ++ pad2 mn ++ "-" ++ toString yn)
      else none
  | _ => none

/-- Association-list lookup modelling `dict` / `pd.Series.map` lookup. -/
def lookupName (m : List (String × String)) (sym : String) : Option String :=
  (m.find? (fun p => p.1 == sym)).map Prod.snd

/-- The record normalizer, source lines 269-291: build one `display_df`
row from one raw record and the symbol→company-name map.
`none` models the exception raised by the date conversion at line 288;
every other column is total.  Column by column:
* `Stock Name`: `df['SYMBOL'].astype(str).str.upper().map(symbol_to_name).fillna(df['SYMBOL'])`;
* `% Price Change`: see `pctChange` (the `fillna(0)` of line 291 folded in);
* `% Delivery`: `pd.to_numeric(df['DELIV_PER'], errors='coerce').fillna(0).round(2)`;
* `Total Volume Traded`: `df['TTL_TRD_QNTY'].astype(int)`;
* `Close Price` / `Previous Close Price`: `.round(2)`;
* `Delivered Qty`: `pd.to_numeric(df['DELIV_QTY'], errors='coerce').fillna(0).astype(int)`;
* `Turnover (₹ Cr)`: `(df['TURNOVER_LACS'] / 100).round(2)`. -/
def normalizeRecord (symbol_to_name : List (String × String)) (r : RawRecord) :
    Option NormalizedRow :=
  match convertDate r.DATE1 with
  | none => none
  | some d => some
      { stock_name := (lookupName symbol_to_name (strUpper r.SYMBOL)).getD r.SYMBOL
        pct_change := pctChange r.CLOSE_PRICE r.PREV_CLOSE
        pct_delivery := round2 (r.DELIV_PER.getD 0)
        total_volume := r.TTL_TRD_QNTY
        close_price := round2 r.CLOSE_PRICE
        prev_close_price := round2 r.PREV_CLOSE
        symbol := r.SYMBOL
        date := d
        delivered_qty := truncQ (r.DELIV_QTY.getD 0)
        turnover_cr := round2 (r.TURNOVER_LACS / 100) }

/-- Boolean-mask row selection, `df[mask]`: keep the rows whose mask
entry is `True`. -/
def applyMask (rows : List NormalizedRow) (mask : List Bool) : List NormalizedRow :=
  (rows.zip mask).filterMap (fun p => if p.2 then some p.1 else none)

/-- The numeric-range mask of source lines 361-366: elementwise
conjunction of the four comparisons
`chg >= min_chg & chg <= max_chg & del >= min_del & del <= max_del`. -/
def rangeMask (min_chg max_chg min_del max_del : ℚ) (rows : List NormalizedRow) :
    List Bool :=
  rows.map (fun r =>
    (EValue.leb (.fin min_chg) r.pct_change && EValue.leb r.pct_change (.fin max_chg)) &&
    (decide (min_del ≤ r.pct_delivery) && decide (r.pct_delivery ≤ max_del)))

/-- The numeric-range filter, source lines 361-366:
`display_df[(chg >= min_chg) & (chg <= max_chg) & (del >= min_del) & (del <= max_del)]`. -/
def rangeFilter (min_chg max_chg min_del max_del : ℚ) (rows : List NormalizedRow) :
    List NormalizedRow :=
  applyMask rows (rangeMask min_chg max_chg min_del max_del rows)

/-- The free-text search filter, source lines 369-374: when the search
box is non-empty, keep the rows where the uppercased search string occurs
in `Symbol` (case-sensitive `str.contains`) or, case-insensitively, in
`Stock Name`. -/
def searchFilter (stock_search : String) (rows : List NormalizedRow) :
    List NormalizedRow :=
  if stock_search = "" then rows
  else
    applyMask rows (rows.map (fun r =>
      strContains r.symbol (strUpper stock_search) ||
      strContains (strUpper r.stock_name) (strUpper stock_search)))

/-- The index-membership filter, source lines 377-384.  Returns the
filtered rows together with the warning flag (`True` exactly when the
`st.warning` branch at line 384 runs): when a specific index is chosen
and the member lookup comes back empty, the clause is skipped and the
warning shown; when it comes back non-empty, keep the rows whose
uppercased symbol is a member. -/
def applyIndexFilter (index_choice : String) (lookup : String → List String)
    (rows : List NormalizedRow) : List NormalizedRow × Bool :=
  if index_choice ≠ "" ∧ index_choice ≠ "All Stocks" then
    let members := lookup index_choice
    if members = [] then (rows, true)
    else (rows.filter (fun r => members.contains (strUpper r.symbol)), false)
  else (rows, false)

/-- `num_pages = (total_rows + page_size - 1) // page_size`
(source line 435). -/
def numPages (total_rows page_size : ℕ) : ℕ := (total_rows + page_size - 1) / page_size

/-- Pagination, source lines 434-450: when more than one page exists,
slice `iloc[start:end]` with `start = (page - 1) * page_size` and
`end = min(start + page_size, total_rows)`; otherwise show everything.
`page` is 1-indexed. -/
def paginate (rows : List NormalizedRow) (page_size page : ℕ) : List NormalizedRow :=
  if 1 < numPages rows.length page_size then
    (rows.drop ((page - 1) * page_size)).take page_size
  else rows

/-- Stable descending sort on a key, the semantics of
`DataFrame.nlargest(n, col)` with its default `keep='first'` (documented
as `sort_values(col, ascending=False).head(n)` with first occurrences
kept on ties). -/
def sortDescBy (key : NormalizedRow → EValue) (rows : List NormalizedRow) :
    List NormalizedRow :=
  rows.mergeSort (fun a b => EValue.leb (key b) (key a))

/-- The top-performers export, source line 521:
`display_df.nlargest(100, '% Price Change')`. -/
def top_performers (rows : List NormalizedRow) : List NormalizedRow :=
  (sortDescBy (fun r => r.pct_change) rows).take 100

/-- The `INDEX_URLS` table of source lines 128-133. -/
def INDEX_URLS : List (String × String) :=
  [("NIFTY50", "https://archives.nseindia.com/content/indices/ind_nifty50list.csv"),
   ("NIFTY100", "https://archives.nseindia.com/content/indices/ind_nifty100list.csv"),
   ("NIFTY200", "https://archives.nseindia.com/content/indices/ind_nifty200list.csv"),
   ("NIFTY500", "https://archives.nseindia.com/content/indices/ind_nifty500list.csv")]

/-- A fetched CSV: named columns with their string values.  A fetch
oracle returning `none` models any network or parse failure (the bare
`except` at source lines 146-147). -/
structure CsvTable where
  cols : List (String × List String)
deriving DecidableEq, Repr

/-- Column lookup by exact name, `c in df_idx.columns` followed by
selection. -/
def findCol (cols : List (String × List String)) (name : String) : Option (List String) :=
  (cols.find? (fun c => c.1 == name)).map Prod.snd

/-- Symbol-column resolution of source lines 149-161: try the exact
names `Symbol`, `SYMBOL`, `symbol` in order, then fall back to the first
column whose lowercased name contains the substring `symbol`. -/
def resolveSymbolCol (cols : List (String × List String)) : Option (List String) :=
  match findCol cols "Symbol" with
  | some v => some v
  | none =>
    match findCol cols "SYMBOL" with
    | some v => some v
    | none =>
      match findCol cols "symbol" with
      | some v => some v
      | none => (cols.find? (fun c => strContains (strLower c.1) "symbol")).map Prod.snd

/-- `get_index_members`, source lines 136-162, with the network modelled
as a fetch oracle from URL to `Option CsvTable`.  Returns the member set
(as a list) together with a flag recording whether a network request was
attempted (`resp = requests.get(...)` reached).  An unknown index key
returns the empty set before any fetch; a failed fetch or an unresolved
symbol column also returns the empty set. -/
def get_index_members (fetch : String → Option CsvTable) (index_name : Option String) :
    List String × Bool :=
  let index_key := strUpper (index_name.getD "")
  match (INDEX_URLS.find? (fun p => p.1 == index_key)).map Prod.snd with
  | none => ([], false)
  | some url =>
    match fetch url with
    | none => ([], true)
    | some tbl =>
      match resolveSymbolCol tbl.cols with
      | none => ([], true)
      | some vals => (vals.map (fun s => strTrim (strUpper s)), true)

/-! ## Helper lemmas -/

theorem roundHalfEven_intCast (n : ℤ) : roundHalfEven (n : ℚ) = n := by
  simp only [roundHalfEven, Int.floor_intCast]
  norm_num

theorem le_roundHalfEven {n : ℤ} {q : ℚ} (h : (n : ℚ) ≤ q) : n ≤ roundHalfEven q := by
  have h1 : n ≤ ⌊q⌋ := Int.le_floor.mpr h
  simp only [roundHalfEven]
  split_ifs <;> omega

theorem roundHalfEven_le {n : ℤ} {q : ℚ} (h : q ≤ (n : ℚ)) : roundHalfEven q ≤ n := by
  have h1 : ⌊q⌋ ≤ n := by
    have h2 : ⌊q⌋ ≤ ⌊(n : ℚ)⌋ := Int.floor_le_floor h
    simpa using h2
  have hstrict : ¬ (q - ⌊q⌋ < 1/2) → ⌊q⌋ < n := by
    intro hge
    rcases h1.lt_or_eq with hlt | heq
    · exact hlt
    · exfalso
      apply hge
      have hfl : (⌊q⌋ : ℚ) ≤ q := Int.floor_le q
      have hq : q = (⌊q⌋ : ℚ) := by
        apply le_antisymm _ hfl
        rw [heq]
        exact h
      rw [← hq]
      norm_num
  simp only [roundHalfEven]
  split_ifs with hA hB hC
  · exact h1
  · have h2 := hstrict hA
    omega
  · exact h1
  · have h2 := hstrict hA
    omega

theorem round2_intCast (n : ℤ) : round2 (n : ℚ) = n := by
  unfold round2
  have h : ((n : ℚ) * 100) = ((n * 100 : ℤ) : ℚ) := by push_cast; ring
  rw [h, roundHalfEven_intCast]
  push_cast
  field_simp

theorem intCast_le_round2 {n : ℤ} {q : ℚ} (h : (n : ℚ) ≤ q) : (n : ℚ) ≤ round2 q := by
  unfold round2
  have h1 : n * 100 ≤ roundHalfEven (q * 100) := by
    apply le_roundHalfEven
    push_cast
    nlinarith
  rw [le_div_iff₀ (by norm_num : (0:ℚ) < 100)]
  exact_mod_cast h1

theorem round2_le_intCast {n : ℤ} {q : ℚ} (h : q ≤ (n : ℚ)) : round2 q ≤ (n : ℚ) := by
  unfold round2
  have h1 : roundHalfEven (q * 100) ≤ n * 100 := by
    apply roundHalfEven_le
    push_cast
    nlinarith
  rw [div_le_iff₀ (by norm_num : (0:ℚ) < 100)]
  exact_mod_cast h1

theorem round2_round2 (q : ℚ) : round2 (round2 q) = round2 q := by
  have h : round2 q * 100 = ((roundHalfEven (q * 100) : ℤ) : ℚ) := by
    rw [round2]
    field_simp
  rw [round2, h, roundHalfEven_intCast, round2]

theorem applyMask_map_eq_filter (p : NormalizedRow → Bool) (rows : List NormalizedRow) :
    applyMask rows (rows.map p) = rows.filter p := by
  induction rows with
  | nil => rfl
  | cons a l ih =>
    simp only [applyMask, List.map_cons, List.zip_cons_cons, List.filterMap_cons] at ih ⊢
    by_cases h : p a <;> simp [h, List.filter_cons, ih]

theorem EValue.leb_refl (a : EValue) : EValue.leb a a = true := by
  cases a <;> simp [EValue.leb]

theorem EValue.leb_trans {a b c : EValue} (h1 : EValue.leb a b = true)
    (h2 : EValue.leb b c = true) : EValue.leb a c = true := by
  cases a <;> cases b <;> cases c <;> simp_all [EValue.leb] <;> exact le_trans h1 h2

theorem EValue.leb_total (a b : EValue) : (EValue.leb a b || EValue.leb b a) = true := by
  cases a <;> cases b <;> simp [EValue.leb, le_total]

theorem numPages_eq_ceil (total size : ℕ) (h : 1 ≤ size) :
    (numPages total size : ℤ) = ⌈(total : ℚ) / (size : ℚ)⌉ := by
  have h1 := Nat.div_add_mod (total + size - 1) size
  have h2 : (total + size - 1) % size < size := Nat.mod_lt _ (by omega)
  rw [Nat.mul_comm] at h1
  have hlow : total ≤ ((total + size - 1) / size) * size := by omega
  have hhigh : ((total + size - 1) / size) * size < total + size := by omega
  have hs : (0:ℚ) < (size:ℚ) := by exact_mod_cast h
  unfold numPages
  symm
  rw [Int.ceil_eq_iff]
  refine ⟨?_, ?_⟩
  · rw [lt_div_iff₀ hs, Int.cast_natCast]
    have hc : (((total + size - 1) / size : ℕ) : ℚ) * (size:ℚ) < (total:ℚ) + (size:ℚ) := by
      exact_mod_cast hhigh
    nlinarith
  · rw [div_le_iff₀ hs, Int.cast_natCast]
    exact_mod_cast hlow

theorem le_numPages_mul (total size : ℕ) (h : 1 ≤ size) :
    total ≤ numPages total size * size := by
  unfold numPages
  have h1 := Nat.div_add_mod (total + size - 1) size
  have h2 : (total + size - 1) % size < size := Nat.mod_lt _ (by omega)
  rw [Nat.mul_comm] at h1
  omega

theorem join_take_chunks (rows : List NormalizedRow) (size : ℕ) (k : ℕ) :
    ((List.range k).map (fun i => (rows.drop (i * size)).take size)).flatten
      = rows.take (k * size) := by
  induction k with
  | zero => simp
  | succ k ih =>
    rw [List.range_succ, List.map_append, List.flatten_append]
    simp only [List.map_cons, List.map_nil, List.flatten_cons, List.flatten_nil,
      List.append_nil]
    rw [ih, Nat.succ_mul, List.take_add]

theorem numPages_zero (total size : ℕ) (h : 1 ≤ size) (h0 : numPages total size = 0) :
    total = 0 := by
  unfold numPages at h0
  have h1 := Nat.div_add_mod (total + size - 1) size
  have h2 : (total + size - 1) % size < size := Nat.mod_lt _ (by omega)
  rw [h0] at h1
  simp at h1
  omega

theorem paginate_join (rows : List NormalizedRow) (size : ℕ) (h : 1 ≤ size) :
    ((List.range (numPages rows.length size)).map (fun i => paginate rows size (i + 1))).flatten
      = rows := by
  by_cases h1 : 1 < numPages rows.length size
  · have hpag : ∀ i : ℕ, paginate rows size (i + 1) = (rows.drop (i * size)).take size := by
      intro i
      unfold paginate
      rw [if_pos h1]
      simp
    simp only [hpag]
    rw [join_take_chunks]
    exact List.take_of_length_le (le_numPages_mul rows.length size h)
  · have h0 : numPages rows.length size = 0 ∨ numPages rows.length size = 1 := by omega
    rcases h0 with h0 | h0
    · have hrows : rows = [] := List.length_eq_zero.mp (numPages_zero _ _ h h0)
      rw [h0, hrows]
      rfl
    · rw [h0]
      simp only [List.range_succ, List.range_zero, List.nil_append, List.map_cons,
        List.map_nil, List.flatten_cons, List.flatten_nil, List.append_nil]
      unfold paginate
      rw [h0]
      simp

/-- A normalized row with the given symbol, company name, `% Price
Change` and `% Delivery`, every other column zero; used to state
concrete scenarios. -/
def mkRow (sym nm : String) (pc : EValue) (pd : ℚ) : NormalizedRow :=
  { stock_name := nm, pct_change := pc, pct_delivery := pd, total_volume := 0,
    close_price := 0, prev_close_price := 0, symbol := sym, date := "",
    delivered_qty := 0, turnover_cr := 0 }

/-- A 47-row table whose rows are distinguished by their symbol. -/
def c5rows : List NormalizedRow :=
  (List.range 47).map (fun i => mkRow (toString i) (toString i) (.fin 0) 0)

/-- C5: for every row sequence and every `page_size ≥ 1`, the page count
`num_pages = (total_rows + page_size - 1) // page_size` equals
`ceil(count / page_size)`, and concatenating the 1-indexed page slices
over all valid pages reconstructs the input exactly, with no duplicated
and no omitted row. -/
theorem pagination_spec (rows : List NormalizedRow) (size : ℕ) (h : 1 ≤ size) :
    (numPages rows.length size : ℤ) = ⌈(rows.length : ℚ) / (size : ℚ)⌉ ∧
    ((List.range (numPages rows.length size)).map (fun i => paginate rows size (i + 1))).flatten
      = rows :=
  ⟨numPages_eq_ceil _ _ h, paginate_join rows size h⟩

/-- Witness for C5: 47 rows with page size 25 give `total_pages = 2`,
page 2 is rows 26-47 (22 rows), and the pages concatenate back to the
input. -/
theorem pagination_spec_witness :
    (1 ≤ 25 ∧
      ((numPages c5rows.length 25 : ℤ) = ⌈(c5rows.length : ℚ) / (25 : ℚ)⌉ ∧
        ((List.range (numPages c5rows.length 25)).map
            (fun i => paginate c5rows 25 (i + 1))).flatten = c5rows)) ∧
    numPages c5rows.length 25 = 2 ∧
    paginate c5rows 25 2 = c5rows.drop 25 ∧
    (c5rows.drop 25).length = 22 :=
  ⟨⟨by norm_num, pagination_spec c5rows 25 (by norm_num)⟩, by rfl, by rfl, by rfl⟩

/-- The row `normalizeRecord` builds whenever the date parses, written
out field by field; used to name concrete normalized outputs. -/
def normRowOf (m : List (String × String)) (r : RawRecord) : NormalizedRow :=
  { stock_name := (lookupName m (strUpper r.SYMBOL)).getD r.SYMBOL
    pct_change := pctChange r.CLOSE_PRICE r.PREV_CLOSE
    pct_delivery := round2 (r.DELIV_PER.getD 0)
    total_volume := r.TTL_TRD_QNTY
    close_price := round2 r.CLOSE_PRICE
    prev_close_price := round2 r.PREV_CLOSE
    symbol := r.SYMBOL
    date := (convertDate r.DATE1).getD ""
    delivered_qty := truncQ (r.DELIV_QTY.getD 0)
    turnover_cr := round2 (r.TURNOVER_LACS / 100) }

theorem normalizeRecord_some (m : List (String × String)) (r : RawRecord)
    (row : NormalizedRow) (h : normalizeRecord m r = some row) :
    row = normRowOf m r := by
  unfold normalizeRecord at h
  cases hc : convertDate r.DATE1 <;> rw [hc] at h
  · cases h
  · injection h with h2
    subst h2
    unfold normRowOf
    rw [hc]
    rfl

/-- A raw record used as the base of the concrete scenarios: the
spec scenario `SYMBOL: "ABC", PREV_CLOSE: 100, CLOSE_PRICE: 110,
TTL_TRD_QNTY: 1000, DELIV_QTY: 400, DELIV_PER: 40, TURNOVER_LACS: 500`. -/
def baseRec : RawRecord :=
  { SYMBOL := "ABC", DATE1 := "04-Oct-2024", PREV_CLOSE := 100, CLOSE_PRICE := 110,
    TTL_TRD_QNTY := 1000, DELIV_QTY := some 400, DELIV_PER := some 40, TURNOVER_LACS := 500 }

/-- `baseRec` with a zero previous close and a positive close. -/
def c1rec : RawRecord := { baseRec with PREV_CLOSE := 0 }

/-- `baseRec` with both closes zero. -/
def c1recW : RawRecord := { baseRec with PREV_CLOSE := 0, CLOSE_PRICE := 0 }

/-- C1 (amended): on `PREV_CLOSE = 0` normalization still yields a row
(no exception), but the `% Price Change` cell is `0` only when
`CLOSE_PRICE` is also `0` (the `0/0 = NaN` cell is the one `fillna(0)`
replaces); when `CLOSE_PRICE > 0` it is `+inf` and when `CLOSE_PRICE < 0`
it is `-inf`, because `fillna` does not touch infinities. -/
theorem pctChange_of_prev_close_zero (m : List (String × String)) (r : RawRecord)
    (row : NormalizedRow) (h0 : r.PREV_CLOSE = 0) (h1 : normalizeRecord m r = some row) :
    row.pct_change =
      (if r.CLOSE_PRICE = 0 then EValue.fin 0
       else if 0 < r.CLOSE_PRICE then EValue.inf else EValue.neginf) := by
  rw [normalizeRecord_some m r row h1]
  show pctChange r.CLOSE_PRICE r.PREV_CLOSE = _
  rw [h0]
  unfold pctChange pandasDiv
  simp only [sub_zero, if_pos rfl]
  by_cases hc0 : r.CLOSE_PRICE = 0
  · simp [hc0, PValue.mulPos, PValue.round2P, fillna0]
  · by_cases hpos : 0 < r.CLOSE_PRICE
    · simp [hc0, hpos, PValue.mulPos, PValue.round2P, fillna0]
    · simp [hc0, hpos, PValue.mulPos, PValue.round2P, fillna0]

/-- Witness for the amended C1: a record with `PREV_CLOSE = 0` and
`CLOSE_PRICE = 0` normalizes without error and its `% Price Change`
follows the case split (here the `NaN → 0` branch). -/
theorem pctChange_of_prev_close_zero_witness :
    c1recW.PREV_CLOSE = 0 ∧
    normalizeRecord [] c1recW = some (normRowOf [] c1recW) ∧
    (normRowOf [] c1recW).pct_change =
      (if c1recW.CLOSE_PRICE = 0 then EValue.fin 0
       else if 0 < c1recW.CLOSE_PRICE then EValue.inf else EValue.neginf) :=
  ⟨rfl, rfl, pctChange_of_prev_close_zero [] c1recW (normRowOf [] c1recW) rfl rfl⟩

/-- Counterexample to C1 as stated: for `PREV_CLOSE = 0` and
`CLOSE_PRICE = 110` the normalized `% Price Change` is `+inf`, not `0` —
`fillna(0)` (source line 291) replaces only `NaN`, and `110 / 0` is
`+inf`, not `NaN`. -/
theorem pct_change_zero_prev_counterexample :
    c1rec.PREV_CLOSE = 0 ∧
    (normalizeRecord [] c1rec).map NormalizedRow.pct_change = some EValue.inf ∧
    (normalizeRecord [] c1rec).map NormalizedRow.pct_change ≠ some (EValue.fin 0) := by
  have h1 : normalizeRecord [] c1rec = some (normRowOf [] c1rec) := rfl
  have h2 : (normRowOf [] c1rec).pct_change = EValue.inf := by
    show pctChange 110 0 = EValue.inf
    unfold pctChange pandasDiv
    norm_num [PValue.mulPos, PValue.round2P, fillna0]
  refine ⟨rfl, ?_, ?_⟩
  · rw [h1]
    simp [h2]
  · rw [h1]
    simp [h2]

/-- C2: whenever `PREV_CLOSE > 0`, the normalized `% Price Change`
equals `round((CLOSE_PRICE - PREV_CLOSE) / PREV_CLOSE * 100, 2)`. -/
theorem pctChange_of_prev_close_pos (m : List (String × String)) (r : RawRecord)
    (row : NormalizedRow) (h0 : 0 < r.PREV_CLOSE) (h1 : normalizeRecord m r = some row) :
    row.pct_change
      = EValue.fin (round2 ((r.CLOSE_PRICE - r.PREV_CLOSE) / r.PREV_CLOSE * 100)) := by
  rw [normalizeRecord_some m r row h1]
  show pctChange r.CLOSE_PRICE r.PREV_CLOSE = _
  unfold pctChange pandasDiv
  rw [if_neg (ne_of_gt h0)]
  simp [PValue.mulPos, PValue.round2P, fillna0]

/-- Witness for C2: the spec scenario record (`PREV_CLOSE = 100`,
`CLOSE_PRICE = 110`) normalizes to `% Price Change = 10.0`. -/
theorem pctChange_of_prev_close_pos_witness :
    (0:ℚ) < baseRec.PREV_CLOSE ∧
    normalizeRecord [] baseRec = some (normRowOf [] baseRec) ∧
    (normRowOf [] baseRec).pct_change
      = EValue.fin (round2 ((baseRec.CLOSE_PRICE - baseRec.PREV_CLOSE) / baseRec.PREV_CLOSE * 100)) ∧
    (normRowOf [] baseRec).pct_change = EValue.fin 10 := by
  have h0 : (0:ℚ) < baseRec.PREV_CLOSE := by norm_num [baseRec]
  have h1 : normalizeRecord [] baseRec = some (normRowOf [] baseRec) := rfl
  have h2 := pctChange_of_prev_close_pos [] baseRec (normRowOf [] baseRec) h0 h1
  refine ⟨h0, h1, h2, ?_⟩
  rw [h2]
  have harith : (baseRec.CLOSE_PRICE - baseRec.PREV_CLOSE) / baseRec.PREV_CLOSE * 100
      = ((10:ℤ):ℚ) := by
    norm_num [baseRec]
  rw [harith, round2_intCast]
  norm_num

/-- `baseRec` with an out-of-range delivery percentage. -/
def c9rec : RawRecord := { baseRec with DELIV_PER := some 150 }

/-- C9 (amended): the normalized `% Delivery` is always a number of the
row (never an error — normalization succeeds regardless of the delivery
fields), is rounded to 2 places (a fixed point of `round2`), defaults to
`0` when the raw `DELIV_PER` is missing/non-numeric, and lies in
`[0, 100]` **provided** the raw value does: the source applies no
clamping, so out-of-range raw values pass through. -/
theorem pct_delivery_spec (m : List (String × String)) (r : RawRecord)
    (row : NormalizedRow) (h : normalizeRecord m r = some row) :
    (r.DELIV_PER = none → row.pct_delivery = 0) ∧
    round2 row.pct_delivery = row.pct_delivery ∧
    (∀ dq dp : Option ℚ,
      (normalizeRecord m { r with DELIV_QTY := dq, DELIV_PER := dp }).isSome = true) ∧
    (∀ q : ℚ, r.DELIV_PER = some q → 0 ≤ q → q ≤ 100 →
      0 ≤ row.pct_delivery ∧ row.pct_delivery ≤ 100) := by
  have hpd : row.pct_delivery = round2 (r.DELIV_PER.getD 0) := by
    rw [normalizeRecord_some m r row h]
    rfl
  refine ⟨?_, ?_, ?_, ?_⟩
  · intro hn
    rw [hpd, hn]
    simp only [Option.getD_none]
    simpa using round2_intCast 0
  · rw [hpd, round2_round2]
  · intro dq dp
    have hsome : (normalizeRecord m r).isSome = true := by rw [h]; rfl
    unfold normalizeRecord at hsome ⊢
    cases hc : convertDate r.DATE1 <;> rw [hc] at hsome <;> simp_all
  · intro q hq h0 h100
    rw [hpd, hq]
    simp only [Option.getD_some]
    constructor
    · have := intCast_le_round2 (n := 0) (q := q) (by exact_mod_cast h0)
      exact_mod_cast this
    · have := round2_le_intCast (n := 100) (q := q) (by exact_mod_cast h100)
      exact_mod_cast this

/-- Counterexample to C9 as stated: a raw `DELIV_PER` of `150` survives
normalization as `% Delivery = 150`, outside `[0, 100]` — the code never
clamps the value. -/
theorem pct_delivery_range_counterexample :
    c9rec.DELIV_PER = some 150 ∧
    normalizeRecord [] c9rec = some (normRowOf [] c9rec) ∧
    (normRowOf [] c9rec).pct_delivery = 150 ∧
    ¬ ((normRowOf [] c9rec).pct_delivery ≤ 100) := by
  have h150 : (normRowOf [] c9rec).pct_delivery = 150 := by
    show round2 ((some (150:ℚ)).getD 0) = 150
    simp only [Option.getD_some]
    rw [show ((150:ℚ)) = ((150:ℤ):ℚ) by norm_num, round2_intCast]
  refine ⟨rfl, rfl, h150, ?_⟩
  rw [h150]
  norm_num

/-- Witness for the amended C9: the in-range raw value `40` yields a
`% Delivery` inside `[0, 100]`. -/
theorem pct_delivery_spec_witness :
    normalizeRecord [] baseRec = some (normRowOf [] baseRec) ∧
    baseRec.DELIV_PER = some 40 ∧
    (0:ℚ) ≤ 40 ∧ (40:ℚ) ≤ 100 ∧
    (0 ≤ (normRowOf [] baseRec).pct_delivery ∧ (normRowOf [] baseRec).pct_delivery ≤ 100) :=
  ⟨rfl, rfl, by norm_num, by norm_num,
    (pct_delivery_spec [] baseRec (normRowOf [] baseRec) rfl).2.2.2 40 rfl (by norm_num)
      (by norm_num)⟩

theorem rangeFilter_eq_filter (mc Mc md Md : ℚ) (rows : List NormalizedRow) :
    rangeFilter mc Mc md Md rows
      = rows.filter (fun r =>
          (EValue.leb (.fin mc) r.pct_change && EValue.leb r.pct_change (.fin Mc)) &&
          (decide (md ≤ r.pct_delivery) && decide (r.pct_delivery ≤ Md))) := by
  unfold rangeFilter rangeMask
  exact applyMask_map_eq_filter _ _

/-- C3: the numeric-range filter keeps exactly the rows whose
`% Price Change` lies in `[min_chg, max_chg]` and whose `% Delivery`
lies in `[min_del, max_del]` (bounds inclusive), in input order (the
output is a subsequence of the input); with `min_chg = 5`,
`max_chg = 100` over changes `[-2, 5, 10]` exactly the `5` and `10`
rows survive. -/
theorem rangeFilter_spec :
    (∀ (min_chg max_chg min_del max_del : ℚ) (rows : List NormalizedRow),
      rangeFilter min_chg max_chg min_del max_del rows
        = rows.filter (fun r =>
            (EValue.leb (.fin min_chg) r.pct_change && EValue.leb r.pct_change (.fin max_chg)) &&
            (decide (min_del ≤ r.pct_delivery) && decide (r.pct_delivery ≤ max_del))) ∧
      (rangeFilter min_chg max_chg min_del max_del rows).Sublist rows ∧
      (∀ r, r ∈ rangeFilter min_chg max_chg min_del max_del rows ↔
        r ∈ rows ∧ (EValue.leb (.fin min_chg) r.pct_change = true ∧
          EValue.leb r.pct_change (.fin max_chg) = true ∧
          min_del ≤ r.pct_delivery ∧ r.pct_delivery ≤ max_del))) ∧
    rangeFilter 5 100 0 100
        [mkRow "A" "A" (.fin (-2)) 50, mkRow "B" "B" (.fin 5) 50, mkRow "C" "C" (.fin 10) 50]
      = [mkRow "B" "B" (.fin 5) 50, mkRow "C" "C" (.fin 10) 50] := by
  constructor
  · intro mc Mc md Md rows
    refine ⟨rangeFilter_eq_filter mc Mc md Md rows, ?_, ?_⟩
    · rw [rangeFilter_eq_filter]
      exact List.filter_sublist _
    · intro r
      rw [rangeFilter_eq_filter, List.mem_filter]
      simp [and_assoc]
  · rfl

/-- C7 (amended): a non-empty search keeps exactly the rows where the
uppercased search string occurs as a substring of the symbol
(case-sensitively — `str.contains` without `case=False`) or
case-insensitively in the company name; this coincides with the claimed
symmetric case-insensitive test whenever every symbol is already
uppercase. -/
theorem searchFilter_spec (search : String) (rows : List NormalizedRow) (h : search ≠ "") :
    searchFilter search rows
      = rows.filter (fun r =>
          strContains r.symbol (strUpper search) ||
          strContains (strUpper r.stock_name) (strUpper search)) ∧
    ((∀ r ∈ rows, strUpper r.symbol = r.symbol) →
      searchFilter search rows
        = rows.filter (fun r =>
            strContains (strUpper r.symbol) (strUpper search) ||
            strContains (strUpper r.stock_name) (strUpper search))) := by
  have h1 : searchFilter search rows
      = rows.filter (fun r =>
          strContains r.symbol (strUpper search) ||
          strContains (strUpper r.stock_name) (strUpper search)) := by
    unfold searchFilter
    rw [if_neg h]
    exact applyMask_map_eq_filter _ _
  refine ⟨h1, ?_⟩
  intro hup
  rw [h1]
  apply List.filter_congr
  intro r hr
  rw [hup r hr]

/-- The search predicate exactly as the spec words it (for comparison
with the implementation): the search string occurs case-insensitively as
a substring of either the symbol or the company name. -/
def specSearchPred (search : String) (r : NormalizedRow) : Bool :=
  strContains (strUpper r.symbol) (strUpper search) ||
  strContains (strUpper r.stock_name) (strUpper search)

/-- A row with a lowercase symbol and an unrelated company name. -/
def c7row : NormalizedRow := mkRow "abc" "Xyz Corp" (.fin 0) 0

/-- Counterexample to C7 as stated: for the row with symbol `"abc"` and
name `"Xyz Corp"`, the search `"ab"` matches under the spec's
case-insensitive predicate but the code's filter drops the row, because
the symbol clause compares the uppercased search against the symbol
case-sensitively. -/
theorem searchFilter_counterexample :
    ("ab" : String) ≠ "" ∧
    specSearchPred "ab" c7row = true ∧
    searchFilter "ab" [c7row] = [] :=
  ⟨by decide, by rfl, by rfl⟩

/-- Two rows with uppercase symbols. -/
def c7rows : List NormalizedRow :=
  [mkRow "ABC" "Abc Industries" (.fin 0) 0, mkRow "TCS" "Tata Consultancy" (.fin 0) 0]

/-- Witness for the amended C7: searching `"ab"` over uppercase-symbol
rows keeps exactly the matching row. -/
theorem searchFilter_spec_witness :
    ("ab" : String) ≠ "" ∧
    searchFilter "ab" c7rows
      = c7rows.filter (fun r =>
          strContains r.symbol (strUpper "ab") ||
          strContains (strUpper r.stock_name) (strUpper "ab")) ∧
    searchFilter "ab" c7rows = [mkRow "ABC" "Abc Industries" (.fin 0) 0] :=
  ⟨by decide, (searchFilter_spec "ab" c7rows (by decide)).1, by rfl⟩

/-- C8: with a specific index selected, an empty membership lookup makes
the filter a no-op with the warning flag set (source line 384), while a
non-empty lookup keeps exactly the rows whose uppercased symbol is a
member (source lines 380-382). -/
theorem applyIndexFilter_spec (index_choice : String) (lookup : String → List String)
    (rows : List NormalizedRow) (h1 : index_choice ≠ "") (h2 : index_choice ≠ "All Stocks") :
    (lookup index_choice = [] → applyIndexFilter index_choice lookup rows = (rows, true)) ∧
    (lookup index_choice ≠ [] →
      applyIndexFilter index_choice lookup rows
        = (rows.filter (fun r => (lookup index_choice).contains (strUpper r.symbol)), false) ∧
      (∀ r, r ∈ (applyIndexFilter index_choice lookup rows).1 ↔
        r ∈ rows ∧ (lookup index_choice).contains (strUpper r.symbol) = true)) := by
  constructor
  · intro hm
    simp [applyIndexFilter, h1, h2, hm]
  · intro hm
    constructor
    · simp [applyIndexFilter, h1, h2, hm]
    · intro r
      simp [applyIndexFilter, h1, h2, hm, List.mem_filter]

/-- A row used in the index-filter witness. -/
def c8row : NormalizedRow := mkRow "ABC" "Abc Industries" (.fin 0) 0

/-- Witness for C8: selecting `NIFTY50` while the lookup yields the
empty set leaves the rows untouched and raises the warning flag. -/
theorem applyIndexFilter_spec_witness :
    ("NIFTY50" : String) ≠ "" ∧ ("NIFTY50" : String) ≠ "All Stocks" ∧
    applyIndexFilter "NIFTY50" (fun _ => ([] : List String)) [c8row] = ([c8row], true) :=
  ⟨by decide, by decide,
    (applyIndexFilter_spec "NIFTY50" (fun _ => ([] : List String)) [c8row] (by decide)
      (by decide)).1 rfl⟩

/-- C10: when the uppercased index name is not one of the four fixed
keys (including `none` and the empty string), `get_index_members`
returns the empty set without attempting any network fetch — the same
empty set a fetch failure produces, so the two are indistinguishable to
the caller. -/
theorem get_index_members_unknown (fetch : String → Option CsvTable)
    (index_name : Option String)
    (h : strUpper (index_name.getD "") ∉ ["NIFTY50", "NIFTY100", "NIFTY200", "NIFTY500"]) :
    get_index_members fetch index_name = ([], false) ∧
    (get_index_members (fun _ => none) (some "NIFTY50")).1 = [] := by
  refine ⟨?_, rfl⟩
  have hf : INDEX_URLS.find? (fun p => p.1 == strUpper (index_name.getD "")) = none := by
    rw [List.find?_eq_none]
    intro x hx
    simp only [INDEX_URLS, List.mem_cons, List.not_mem_nil, or_false] at hx
    simp only [List.mem_cons, List.mem_singleton, List.not_mem_nil, not_or] at h
    rcases hx with hx | hx | hx | hx <;> subst hx <;> simp only [beq_iff_eq] <;> intro he
    · exact h.1 he.symm
    · exact h.2.1 he.symm
    · exact h.2.2.1 he.symm
    · exact h.2.2.2.1 he.symm
  unfold get_index_members
  dsimp only
  rw [hf]
  rfl

/-- Witness for C10: the unknown index `"FOO"` yields the empty set with
no fetch attempted, even when a fetch would succeed, and the same empty
set results for `NIFTY50` when the fetch fails. -/
theorem get_index_members_unknown_witness :
    strUpper ((some "FOO").getD "") ∉ ["NIFTY50", "NIFTY100", "NIFTY200", "NIFTY500"] ∧
    (get_index_members (fun _ => some ⟨[("Symbol", ["ABC"])]⟩) (some "FOO") = ([], false) ∧
      (get_index_members (fun _ => none) (some "NIFTY50")).1 = []) :=
  ⟨by decide, get_index_members_unknown (fun _ => some ⟨[("Symbol", ["ABC"])]⟩) (some "FOO")
    (by decide)⟩

/-- C6: the top-N export over the full normalized set
(`nlargest(100, '% Price Change')`, modelled as a stable descending sort
followed by `take 100`) returns exactly `min(100, number of rows)` rows,
and the input splits (up to permutation) into the returned rows and a
rest in which every excluded row's `% Price Change` is `≤` every
returned row's; the selection is a pure function of the input, hence
deterministic on ties. -/
theorem top_performers_spec (rows : List NormalizedRow) :
    (top_performers rows).length = min 100 rows.length ∧
    ∃ rest : List NormalizedRow,
      rows.Perm (top_performers rows ++ rest) ∧
      ∀ x ∈ top_performers rows, ∀ y ∈ rest,
        EValue.leb y.pct_change x.pct_change = true := by
  set s := rows.mergeSort (fun a b => EValue.leb b.pct_change a.pct_change) with hs
  have hperm : s.Perm rows := List.mergeSort_perm rows _
  have hsorted : List.Pairwise
      (fun a b : NormalizedRow => EValue.leb b.pct_change a.pct_change = true) s :=
    @List.sorted_mergeSort NormalizedRow
      (fun a b => EValue.leb b.pct_change a.pct_change)
      (fun a b c hab hbc => EValue.leb_trans hbc hab)
      (fun a b => EValue.leb_total b.pct_change a.pct_change)
      rows
  have htp : top_performers rows = s.take 100 := rfl
  refine ⟨?_, ⟨s.drop 100, ?_, ?_⟩⟩
  · rw [htp, List.length_take, hperm.length_eq]
  · rw [htp, List.take_append_drop]
    exact hperm.symm
  · intro x hx y hy
    rw [htp] at hx
    have hsp : List.Pairwise
        (fun a b : NormalizedRow => EValue.leb b.pct_change a.pct_change = true)
        (s.take 100 ++ s.drop 100) := by
      rw [List.take_append_drop]
      exact hsorted
    exact (List.pairwise_append.mp hsp).2.2 x hx y hy
